import Mathlib

set_option maxHeartbeats 1000000

/-!
Shallow embedding of the route-pattern parser of `yew_router_route_parser`
(files `src/parser/core.rs` and `src/parser/path.rs`).

Strings are modelled as `List Char`; a nom parser `Fn(&str) -> IResult<&str, T, VerboseError>`
becomes a Lean function `List Char → PResult T`.  A nom `Err::Error` (the only error kind
these parsers produce; they never use `Err::Failure`) is `PResult.err`; a Rust panic
(`expect` / `unreachable!`) is the separate outcome `PResult.panic`, which no combinator
recovers from (nom's `alt`/`opt` only catch `Err::Error`, while a panic unwinds).
-/

/-- Modelled from the spec: the `CaptureVariant` enum lives in `parser/mod.rs`, which is
not among the sources; spec section 3 lists exactly these six variants.  `sections` is the
machine integer the code's `n.parse()` targets (`usize`); its value is kept as a `Nat` and
the 64-bit range bound is enforced by `parse_usize` below. -/
inductive CaptureVariant : Type where
  | Unnamed
  | ManyNamed (name : String)
  | ManyUnnamed
  | Named (name : String)
  | NumberedNamed (sections : Nat) (name : String)
  | NumberedUnnamed (sections : Nat)
  deriving DecidableEq

/-- Modelled from the spec: the `RouteParserToken` enum lives in `parser/mod.rs`, which is
not among the sources; spec section 3 lists these variants (`Separator`, `Match(text)`,
`Capture(variant)`, `Optional(sequence of Token)`). -/
inductive RouteParserToken : Type where
  | Separator
  | Match (s : String)
  | Capture (v : CaptureVariant)
  | Optional (ts : List RouteParserToken)

/-- Result of running an embedded nom parser: success with the unconsumed remainder,
a recoverable `Err::Error`, or a Rust panic. -/
inductive PResult (α : Type) : Type where
  | ok (rest : List Char) (val : α)
  | err
  | panic
  deriving DecidableEq

/-- nom's `alt((p, q))` restricted to two branches: try `p`; on `Err::Error` try `q`
with the original input; a panic unwinds. -/
def altP {α : Type} (p q : List Char → PResult α) (i : List Char) : PResult α :=
  match p i with
  | .ok rest v => .ok rest v
  | .err => q i
  | .panic => .panic

/-- The constant `INVALID_CHARACTERS` of `valid_ident_characters` (core.rs line 19). -/
def INVALID_CHARACTERS : String := " -*/+#?&^@~`;,.|\\\x7b\x7d[]()=\t\n"

/-- Membership of a character in `INVALID_CHARACTERS`. -/
def isInvalidChar (c : Char) : Bool := INVALID_CHARACTERS.toList.contains c

/-- Embedding of `valid_ident_characters` (core.rs lines 18-31):
`peek(take(1))` fails on empty input; if the first character is an ASCII digit the parser
fails with `ErrorKind::Digit` (the code tests `is_digit` on the first byte of the first
char, which for a `char` holds exactly when the char is `0`..`9`); otherwise
`is_not(INVALID_CHARACTERS)` consumes the longest non-empty prefix of characters outside
the forbidden set, failing if that prefix is empty. -/
def valid_ident_characters (i : List Char) : PResult (List Char) :=
  match i with
  | [] => .err
  | c :: _ =>
    if c.isDigit then .err
    else
      let run := i.takeWhile (fun ch => !(isInvalidChar ch))
      if run = [] then .err
      else .ok (i.dropWhile (fun ch => !(isInvalidChar ch))) run

/-- Embedding of `match_specific` (core.rs lines 34-39). -/
def match_specific (i : List Char) : PResult RouteParserToken :=
  match valid_ident_characters i with
  | .ok rest s => .ok rest (.Match (String.mk s))
  | .err => .err
  | .panic => .panic

/-- nom's `character::complete::digit1`: one or more ASCII digits. -/
def digit1 (i : List Char) : PResult (List Char) :=
  let run := i.takeWhile Char.isDigit
  if run = [] then .err
  else .ok (i.dropWhile Char.isDigit) run

/-- Numeric value of a decimal digit string. -/
def digitsToNat (ds : List Char) : Nat :=
  ds.foldl (fun acc c => acc * 10 + (c.toNat - 48)) 0

/-- Largest value of the target integer type of `n.parse()` in `capture`
(`usize` on a 64-bit target). -/
def USIZE_MAX : Nat := 2 ^ 64 - 1

/-- Rust's `str::parse::<usize>()` on a non-empty all-digit string: succeeds with the
numeric value unless it overflows `usize`. -/
def parse_usize (ds : List Char) : Option Nat :=
  if digitsToNat ds ≤ USIZE_MAX then some (digitsToNat ds) else none

/-- First `capture` alternative (core.rs line 53): `map(peek(tag("}")), |_| Unnamed)` —
look ahead for `}` without consuming. -/
def cv_unnamed (i : List Char) : PResult CaptureVariant :=
  match i with
  | '}' :: _ => .ok i .Unnamed
  | _ => .err

/-- Second `capture` alternative (core.rs line 54):
`preceded(tag("*:"), valid_ident_characters)` mapped to `ManyNamed`. -/
def cv_many_named (i : List Char) : PResult CaptureVariant :=
  match i with
  | '*' :: ':' :: rest =>
    match valid_ident_characters rest with
    | .ok r s => .ok r (.ManyNamed (String.mk s))
    | .err => .err
    | .panic => .panic
  | _ => .err

/-- Third `capture` alternative (core.rs line 55): `tag("*")` mapped to `ManyUnnamed`. -/
def cv_many_unnamed (i : List Char) : PResult CaptureVariant :=
  match i with
  | '*' :: rest => .ok rest .ManyUnnamed
  | _ => .err

/-- Fourth `capture` alternative (core.rs line 56): `valid_ident_characters` mapped to
`Named`. -/
def cv_named (i : List Char) : PResult CaptureVariant :=
  match valid_ident_characters i with
  | .ok r s => .ok r (.Named (String.mk s))
  | .err => .err
  | .panic => .panic

/-- Fifth `capture` alternative (core.rs line 57):
`separated_pair(digit1, tag(":"), valid_ident_characters)` mapped to `NumberedNamed`;
the closure calls `n.parse().expect("Should parse digits")`, so a failed parse is a
panic, not an error. -/
def cv_numbered_named (i : List Char) : PResult CaptureVariant :=
  match digit1 i with
  | .ok r1 ds =>
    match r1 with
    | ':' :: r2 =>
      match valid_ident_characters r2 with
      | .ok r3 s =>
        match parse_usize ds with
        | some n => .ok r3 (.NumberedNamed n (String.mk s))
        | none => .panic
      | .err => .err
      | .panic => .panic
    | _ => .err
  | .err => .err
  | .panic => .panic

/-- Sixth `capture` alternative (core.rs line 58): `digit1` mapped to `NumberedUnnamed`;
again `num.parse().expect(...)` panics on overflow. -/
def cv_numbered_unnamed (i : List Char) : PResult CaptureVariant :=
  match digit1 i with
  | .ok r ds =>
    match parse_usize ds with
    | some n => .ok r (.NumberedUnnamed n)
    | none => .panic
  | .err => .err
  | .panic => .panic

/-- The `capture_variants` alternation of `capture` (core.rs lines 51-60), in source
order. -/
def capture_variants : List Char → PResult CaptureVariant :=
  altP cv_unnamed (altP cv_many_named (altP cv_many_unnamed
    (altP cv_named (altP cv_numbered_named cv_numbered_unnamed))))

/-- Embedding of `capture` (core.rs lines 50-66):
`delimited(tag("{"), capture_variants, tag("}"))` mapped to `RouteParserToken::Capture`. -/
def capture (i : List Char) : PResult RouteParserToken :=
  match i with
  | '{' :: r1 =>
    match capture_variants r1 with
    | .ok r2 v =>
      match r2 with
      | '}' :: r3 => .ok r3 (.Capture v)
      | _ => .err
    | .err => .err
    | .panic => .panic
  | _ => .err


theorem altP_ok_elim {α : Type} {p q : List Char → PResult α} {i rest : List Char} {v : α}
    (h : altP p q i = .ok rest v) : p i = .ok rest v ∨ q i = .ok rest v := by
  unfold altP at h
  split at h
  · rename_i heq
    injection h with h1 h2
    subst h1
    subst h2
    exact Or.inl heq
  · exact Or.inr h
  · cases h

theorem valid_ident_characters_shape {i rest run : List Char}
    (h : valid_ident_characters i = .ok rest run) :
    run ≠ [] ∧ run ++ rest = i := by
  cases i with
  | nil => simp [valid_ident_characters] at h
  | cons c t =>
    by_cases hd : c.isDigit
    · simp [valid_ident_characters, hd] at h
    · by_cases hrun : (c :: t).takeWhile (fun ch => !(isInvalidChar ch)) = []
      · simp [valid_ident_characters, hd, hrun] at h
      · simp only [valid_ident_characters, hd, Bool.false_eq_true, if_false,
          if_neg hrun] at h
        injection h with h1 h2
        subst h1
        subst h2
        exact ⟨hrun, List.takeWhile_append_dropWhile (fun ch => !(isInvalidChar ch)) (c :: t)⟩

theorem valid_ident_characters_consumes {i rest run : List Char}
    (h : valid_ident_characters i = .ok rest run) : rest.length < i.length := by
  obtain ⟨hne, heq⟩ := valid_ident_characters_shape h
  have hlen : run.length + rest.length = i.length := by
    rw [← heq]; simp
  have hpos : 0 < run.length := List.length_pos.mpr hne
  omega

theorem digit1_shape {i rest run : List Char}
    (h : digit1 i = .ok rest run) :
    run ≠ [] ∧ run ++ rest = i := by
  by_cases hrun : i.takeWhile Char.isDigit = []
  · simp [digit1, hrun] at h
  · simp only [digit1] at h
    rw [if_neg hrun] at h
    injection h with h1 h2
    subst h1
    subst h2
    exact ⟨hrun, List.takeWhile_append_dropWhile Char.isDigit i⟩

theorem digit1_consumes {i rest run : List Char}
    (h : digit1 i = .ok rest run) : rest.length < i.length := by
  obtain ⟨hne, heq⟩ := digit1_shape h
  have hlen : run.length + rest.length = i.length := by
    rw [← heq]; simp
  have hpos : 0 < run.length := List.length_pos.mpr hne
  omega

theorem match_specific_consumes {i rest : List Char} {t : RouteParserToken}
    (h : match_specific i = .ok rest t) : rest.length < i.length := by
  unfold match_specific at h
  split at h
  · rename_i heq
    injection h with h1 h2
    subst h1
    exact valid_ident_characters_consumes heq
  · cases h
  · cases h

theorem cv_unnamed_bound {i rest : List Char} {v : CaptureVariant}
    (h : cv_unnamed i = .ok rest v) : rest.length ≤ i.length := by
  unfold cv_unnamed at h
  split at h
  · injection h with h1 h2
    subst h1
    exact Nat.le_refl _
  · cases h

theorem cv_many_named_bound {i rest : List Char} {v : CaptureVariant}
    (h : cv_many_named i = .ok rest v) : rest.length ≤ i.length := by
  unfold cv_many_named at h
  split at h
  · split at h
    · rename_i heq
      injection h with h1 h2
      subst h1
      have := valid_ident_characters_consumes heq
      simp only [List.length_cons]
      omega
    · cases h
    · cases h
  · cases h

theorem cv_many_unnamed_bound {i rest : List Char} {v : CaptureVariant}
    (h : cv_many_unnamed i = .ok rest v) : rest.length ≤ i.length := by
  unfold cv_many_unnamed at h
  split at h
  · injection h with h1 h2
    subst h1
    simp
  · cases h

theorem cv_named_bound {i rest : List Char} {v : CaptureVariant}
    (h : cv_named i = .ok rest v) : rest.length ≤ i.length := by
  unfold cv_named at h
  split at h
  · rename_i heq
    injection h with h1 h2
    subst h1
    exact Nat.le_of_lt (valid_ident_characters_consumes heq)
  · cases h
  · cases h

theorem cv_numbered_named_bound {i rest : List Char} {v : CaptureVariant}
    (h : cv_numbered_named i = .ok rest v) : rest.length ≤ i.length := by
  unfold cv_numbered_named at h
  split at h
  · rename_i heq1
    split at h
    · rename_i r2
      split at h
      · rename_i heq2
        split at h
        · injection h with h1 h2
          subst h1
          have hd1 := digit1_consumes heq1
          have hv := valid_ident_characters_consumes heq2
          simp only [List.length_cons] at *
          omega
        · cases h
      · cases h
      · cases h
    · cases h
  · cases h
  · cases h

theorem cv_numbered_unnamed_bound {i rest : List Char} {v : CaptureVariant}
    (h : cv_numbered_unnamed i = .ok rest v) : rest.length ≤ i.length := by
  unfold cv_numbered_unnamed at h
  split at h
  · rename_i heq
    split at h
    · injection h with h1 h2
      subst h1
      exact Nat.le_of_lt (digit1_consumes heq)
    · cases h
  · cases h
  · cases h

theorem capture_variants_bound {i rest : List Char} {v : CaptureVariant}
    (h : capture_variants i = .ok rest v) : rest.length ≤ i.length := by
  unfold capture_variants at h
  rcases altP_ok_elim h with h | h
  · exact cv_unnamed_bound h
  rcases altP_ok_elim h with h | h
  · exact cv_many_named_bound h
  rcases altP_ok_elim h with h | h
  · exact cv_many_unnamed_bound h
  rcases altP_ok_elim h with h | h
  · exact cv_named_bound h
  rcases altP_ok_elim h with h | h
  · exact cv_numbered_named_bound h
  · exact cv_numbered_unnamed_bound h

theorem capture_consumes {i rest : List Char} {t : RouteParserToken}
    (h : capture i = .ok rest t) : rest.length < i.length := by
  unfold capture at h
  split at h
  · rename_i c r1
    split at h
    · rename_i heq
      split at h
      · rename_i r3
        injection h with h1 h2
        subst h1
        have := capture_variants_bound heq
        simp only [List.length_cons] at *
        omega
      · cases h
    · cases h
    · cases h
  · cases h

/-- Embedding of `separator_token` (path.rs lines 83-88): `tag("/")` mapped to
`Separator`. -/
def separator_token (i : List Char) : PResult RouteParserToken :=
  match i with
  | '/' :: rest => .ok rest .Separator
  | _ => .err

/-- Embedding of the inner recursion of `section_matchers` (path.rs lines 100-123):
looks at the last accumulated token; after a `Match` it tries `opt(capture)`, after a
`Capture` it tries `opt(match_specific)`, pushing and recursing on success and stopping
(without failing) when the optional parser yields nothing.  The `expect` on an empty
token vector and the `unreachable!()` arm are Rust panics. -/
def match_next_section_matchers (i : List Char) (tokens : List RouteParserToken) :
    PResult (List RouteParserToken) :=
  match tokens.getLast? with
  | some (.Match _) =>
    match h : capture i with
    | .ok rest t => match_next_section_matchers rest (tokens ++ [t])
    | .err => .ok i tokens
    | .panic => .panic
  | some (.Capture _) =>
    match h : match_specific i with
    | .ok rest t => match_next_section_matchers rest (tokens ++ [t])
    | .err => .ok i tokens
    | .panic => .panic
  | _ => .panic
termination_by i.length
decreasing_by
  · exact capture_consumes h
  · exact match_specific_consumes h

/-- Embedding of `section_matchers` (path.rs lines 91-126): first token via
`alt((match_specific, capture))`, then the alternating collection loop. -/
def section_matchers (i : List Char) : PResult (List RouteParserToken) :=
  match altP match_specific capture i with
  | .ok rest t => match_next_section_matchers rest [t]
  | .err => .err
  | .panic => .panic

/-- Embedding of `inner_path_parser` (path.rs lines 21-34):
`pair(separator_token, section_matchers)`, the separator prepended to the section
tokens. -/
def inner_path_parser_fn (i : List Char) : PResult (List RouteParserToken) :=
  match separator_token i with
  | .ok r1 sep =>
    match section_matchers r1 with
    | .ok r2 sections => .ok r2 (sep :: sections)
    | .err => .err
    | .panic => .panic
  | .err => .err
  | .panic => .panic

/-- nom's `multi::many0`: repeat `p` until it fails with `Err::Error`, collecting the
results.  nom aborts with an error when an iteration succeeds without consuming input
(its infinite-loop guard, `i1 == i`); since every parser here returns a suffix of its
input, "same position" is expressed as "no shorter". -/
def many0 {α : Type} (p : List Char → PResult α) (i : List Char) : PResult (List α) :=
  match p i with
  | .err => .ok i []
  | .panic => .panic
  | .ok rest v =>
    if h : rest.length < i.length then
      match many0 p rest with
      | .ok r2 vs => .ok r2 (v :: vs)
      | .err => .err
      | .panic => .panic
    else .err
termination_by i.length

/-- Embedding of `many_inner_paths` (path.rs lines 37-45): `many0(inner_path_parser)`
with the nested token vectors flattened. -/
def many_inner_paths (i : List Char) : PResult (List RouteParserToken) :=
  match many0 inner_path_parser_fn i with
  | .ok r tss => .ok r tss.flatten
  | .err => .err
  | .panic => .panic

/-- Modelled from the spec: `optional_matches` lives in `parser/util.rs`, which is not
among the sources.  Spec section 4.3 phase 2: an optional group is `(`, the inner
parser, `)`, its token sequence wrapped as a single `Optional` token. -/
def optional_matches (p : List Char → PResult (List RouteParserToken)) (i : List Char) :
    PResult RouteParserToken :=
  match i with
  | '(' :: r1 =>
    match p r1 with
    | .ok r2 ts =>
      match r2 with
      | ')' :: r3 => .ok r3 (.Optional ts)
      | _ => .err
    | .err => .err
    | .panic => .panic
  | _ => .err

/-- Embedding of `many_optional_inner_paths` (path.rs lines 48-51):
`many0(optional_matches(inner_path_parser_fn))`. -/
def many_optional_inner_paths : List Char → PResult (List RouteParserToken) :=
  many0 (optional_matches inner_path_parser_fn)

/-- Embedding of `many_optional_after_concrete_inner` (path.rs lines 53-62):
`pair(many_inner_paths, many_optional_inner_paths)`, the second vector appended to the
first. -/
def many_optional_after_concrete_inner (i : List Char) : PResult (List RouteParserToken) :=
  match many_inner_paths i with
  | .ok r1 first =>
    match many_optional_inner_paths r1 with
    | .ok r2 second => .ok r2 (first ++ second)
    | .err => .err
    | .panic => .panic
  | .err => .err
  | .panic => .panic

/-- First alternative of `path_parser` (path.rs lines 67-75):
`tuple((many_optional_after_concrete_inner, opt(separator_token)))`, the optional
ending separator pushed onto the path tokens when present. -/
def path_parser_alt_a (i : List Char) : PResult (List RouteParserToken) :=
  match many_optional_after_concrete_inner i with
  | .ok r1 paths =>
    match separator_token r1 with
    | .ok r2 sep => .ok r2 (paths ++ [sep])
    | .err => .ok r1 paths
    | .panic => .panic
  | .err => .err
  | .panic => .panic

/-- Second alternative of `path_parser` (path.rs lines 76-77): a single bare
separator. -/
def path_parser_alt_b (i : List Char) : PResult (List RouteParserToken) :=
  match separator_token i with
  | .ok r sep => .ok r [sep]
  | .err => .err
  | .panic => .panic

/-- Embedding of `path_parser` (path.rs lines 20-80): the top-level `alt` of the two
alternatives. -/
def path_parser_fn : List Char → PResult (List RouteParserToken) :=
  altP path_parser_alt_a path_parser_alt_b

/-- nom's `combinator::all_consuming`, the full-consumption wrapper the tests and the
route-parser caller use: succeed only when the wrapped parser leaves an empty
remainder, otherwise fail with `ErrorKind::Eof` at that remainder. -/
def all_consuming {α : Type} (p : List Char → PResult α) (i : List Char) : PResult α :=
  match p i with
  | .ok rest v => if rest = [] then .ok rest v else .err
  | .err => .err
  | .panic => .panic

/-- Helper: the tail of a cons cell is one of its suffixes. -/
theorem suffix_tail {α : Type} (c : α) (l : List α) : l <:+ c :: l := ⟨[c], rfl⟩

theorem valid_ident_characters_suffix {i rest run : List Char}
    (h : valid_ident_characters i = .ok rest run) : rest <:+ i :=
  ⟨run, (valid_ident_characters_shape h).2⟩

theorem digit1_suffix {i rest run : List Char}
    (h : digit1 i = .ok rest run) : rest <:+ i :=
  ⟨run, (digit1_shape h).2⟩

theorem altP_suffix {α : Type} {p q : List Char → PResult α}
    (hp : ∀ i r v, p i = .ok r v → r <:+ i)
    (hq : ∀ i r v, q i = .ok r v → r <:+ i) :
    ∀ i r v, altP p q i = .ok r v → r <:+ i := by
  intro i r v h
  rcases altP_ok_elim h with h | h
  · exact hp i r v h
  · exact hq i r v h

theorem cv_unnamed_suffix {i rest : List Char} {v : CaptureVariant}
    (h : cv_unnamed i = .ok rest v) : rest <:+ i := by
  unfold cv_unnamed at h
  split at h
  · injection h with h1 h2
    subst h1
    exact List.suffix_refl _
  · cases h

theorem cv_many_named_suffix {i rest : List Char} {v : CaptureVariant}
    (h : cv_many_named i = .ok rest v) : rest <:+ i := by
  unfold cv_many_named at h
  split at h
  · split at h
    · rename_i heq
      injection h with h1 h2
      subst h1
      exact (valid_ident_characters_suffix heq).trans
        ((suffix_tail _ _).trans (suffix_tail _ _))
    · cases h
    · cases h
  · cases h

theorem cv_many_unnamed_suffix {i rest : List Char} {v : CaptureVariant}
    (h : cv_many_unnamed i = .ok rest v) : rest <:+ i := by
  unfold cv_many_unnamed at h
  split at h
  · injection h with h1 h2
    subst h1
    exact suffix_tail _ _
  · cases h

theorem cv_named_suffix {i rest : List Char} {v : CaptureVariant}
    (h : cv_named i = .ok rest v) : rest <:+ i := by
  unfold cv_named at h
  split at h
  · rename_i heq
    injection h with h1 h2
    subst h1
    exact valid_ident_characters_suffix heq
  · cases h
  · cases h

theorem cv_numbered_named_suffix {i rest : List Char} {v : CaptureVariant}
    (h : cv_numbered_named i = .ok rest v) : rest <:+ i := by
  unfold cv_numbered_named at h
  split at h
  · rename_i heq1
    split at h
    · split at h
      · rename_i heq2
        split at h
        · injection h with h1 h2
          subst h1
          exact ((valid_ident_characters_suffix heq2).trans
            (suffix_tail _ _)).trans (digit1_suffix heq1)
        · cases h
      · cases h
      · cases h
    · cases h
  · cases h
  · cases h

theorem cv_numbered_unnamed_suffix {i rest : List Char} {v : CaptureVariant}
    (h : cv_numbered_unnamed i = .ok rest v) : rest <:+ i := by
  unfold cv_numbered_unnamed at h
  split at h
  · rename_i heq
    split at h
    · injection h with h1 h2
      subst h1
      exact digit1_suffix heq
    · cases h
  · cases h
  · cases h

theorem capture_variants_suffix {i rest : List Char} {v : CaptureVariant}
    (h : capture_variants i = .ok rest v) : rest <:+ i := by
  unfold capture_variants at h
  rcases altP_ok_elim h with h | h
  · exact cv_unnamed_suffix h
  rcases altP_ok_elim h with h | h
  · exact cv_many_named_suffix h
  rcases altP_ok_elim h with h | h
  · exact cv_many_unnamed_suffix h
  rcases altP_ok_elim h with h | h
  · exact cv_named_suffix h
  rcases altP_ok_elim h with h | h
  · exact cv_numbered_named_suffix h
  · exact cv_numbered_unnamed_suffix h

/-- Shape of a successful `capture`: it always returns a `Capture` token and a suffix of
the input. -/
theorem capture_ok_shape {i rest : List Char} {t : RouteParserToken}
    (h : capture i = .ok rest t) : (∃ v, t = .Capture v) ∧ rest <:+ i := by
  unfold capture at h
  split at h
  · split at h
    · rename_i heq
      split at h
      · injection h with h1 h2
        subst h1
        subst h2
        refine ⟨⟨_, rfl⟩, ?_⟩
        exact ((suffix_tail _ _).trans (capture_variants_suffix heq)).trans
          (suffix_tail _ _)
      · cases h
    · cases h
    · cases h
  · cases h

/-- Shape of a successful `match_specific`: it always returns a `Match` token made of a
non-empty identifier run, and a suffix of the input. -/
theorem match_specific_ok_shape {i rest : List Char} {t : RouteParserToken}
    (h : match_specific i = .ok rest t) : (∃ s, t = .Match s) ∧ rest <:+ i := by
  unfold match_specific at h
  split at h
  · rename_i heq
    injection h with h1 h2
    subst h1
    subst h2
    exact ⟨⟨_, rfl⟩, valid_ident_characters_suffix heq⟩
  · cases h
  · cases h

theorem separator_token_ok_shape {i rest : List Char} {t : RouteParserToken}
    (h : separator_token i = .ok rest t) :
    t = .Separator ∧ i = '/' :: rest := by
  unfold separator_token at h
  split at h
  · injection h with h1 h2
    subst h1
    subst h2
    exact ⟨rfl, rfl⟩
  · cases h


theorem mnsm_step_match_ok {i rest : List Char} {tokens : List RouteParserToken}
    {s : String} {t : RouteParserToken}
    (hlast : tokens.getLast? = some (.Match s)) (hc : capture i = .ok rest t) :
    match_next_section_matchers i tokens =
      match_next_section_matchers rest (tokens ++ [t]) := by
  rw [match_next_section_matchers.eq_def]
  split
  · split
    · rename_i heq2
      rw [hc] at heq2
      injection heq2 with e1 e2
      rw [e1, e2]
    · rename_i heq2
      rw [hc] at heq2
      cases heq2
    · rename_i heq2
      rw [hc] at heq2
      cases heq2
  · rename_i v2 heq
    rw [hlast] at heq
    cases heq
  · rename_i x h1 h2
    exact ((h1 s hlast).elim)

theorem mnsm_step_match_err {i : List Char} {tokens : List RouteParserToken}
    {s : String}
    (hlast : tokens.getLast? = some (.Match s)) (hc : capture i = .err) :
    match_next_section_matchers i tokens = .ok i tokens := by
  rw [match_next_section_matchers.eq_def]
  split
  · split
    · rename_i heq2
      rw [hc] at heq2
      cases heq2
    · rfl
    · rename_i heq2
      rw [hc] at heq2
      cases heq2
  · rename_i v2 heq
    rw [hlast] at heq
    cases heq
  · rename_i x h1 h2
    exact ((h1 s hlast).elim)

theorem mnsm_step_match_panic {i : List Char} {tokens : List RouteParserToken}
    {s : String}
    (hlast : tokens.getLast? = some (.Match s)) (hc : capture i = .panic) :
    match_next_section_matchers i tokens = .panic := by
  rw [match_next_section_matchers.eq_def]
  split
  · split
    · rename_i heq2
      rw [hc] at heq2
      cases heq2
    · rename_i heq2
      rw [hc] at heq2
      cases heq2
    · rfl
  · rename_i v2 heq
    rw [hlast] at heq
    cases heq
  · rename_i x h1 h2
    exact ((h1 s hlast).elim)

theorem mnsm_step_capture_ok {i rest : List Char} {tokens : List RouteParserToken}
    {v : CaptureVariant} {t : RouteParserToken}
    (hlast : tokens.getLast? = some (.Capture v))
    (hm : match_specific i = .ok rest t) :
    match_next_section_matchers i tokens =
      match_next_section_matchers rest (tokens ++ [t]) := by
  rw [match_next_section_matchers.eq_def]
  split
  · rename_i s2 heq
    rw [hlast] at heq
    cases heq
  · split
    · rename_i heq2
      rw [hm] at heq2
      injection heq2 with e1 e2
      rw [e1, e2]
    · rename_i heq2
      rw [hm] at heq2
      cases heq2
    · rename_i heq2
      rw [hm] at heq2
      cases heq2
  · rename_i x h1 h2
    exact ((h2 v hlast).elim)

theorem mnsm_step_capture_err {i : List Char} {tokens : List RouteParserToken}
    {v : CaptureVariant}
    (hlast : tokens.getLast? = some (.Capture v)) (hm : match_specific i = .err) :
    match_next_section_matchers i tokens = .ok i tokens := by
  rw [match_next_section_matchers.eq_def]
  split
  · rename_i s2 heq
    rw [hlast] at heq
    cases heq
  · split
    · rename_i heq2
      rw [hm] at heq2
      cases heq2
    · rfl
    · rename_i heq2
      rw [hm] at heq2
      cases heq2
  · rename_i x h1 h2
    exact ((h2 v hlast).elim)

theorem mnsm_step_capture_panic {i : List Char} {tokens : List RouteParserToken}
    {v : CaptureVariant}
    (hlast : tokens.getLast? = some (.Capture v)) (hm : match_specific i = .panic) :
    match_next_section_matchers i tokens = .panic := by
  rw [match_next_section_matchers.eq_def]
  split
  · rename_i s2 heq
    rw [hlast] at heq
    cases heq
  · split
    · rename_i heq2
      rw [hm] at heq2
      cases heq2
    · rename_i heq2
      rw [hm] at heq2
      cases heq2
    · rfl
  · rename_i x h1 h2
    exact ((h2 v hlast).elim)

/-- On success the alternating-collection loop returns a suffix of its input as the
remainder. -/
theorem mnsm_ok_suffix : ∀ (i : List Char) (tokens : List RouteParserToken)
    (rest : List Char) (out : List RouteParserToken),
    match_next_section_matchers i tokens = .ok rest out → rest <:+ i := by
  intro i tokens
  induction i, tokens using match_next_section_matchers.induct with
  | case1 i tokens s hlast rest' t hc ih =>
    intro R out h
    rw [mnsm_step_match_ok hlast hc] at h
    exact (ih R out h).trans (capture_ok_shape hc).2
  | case2 i tokens s hlast hc =>
    intro R out h
    rw [mnsm_step_match_err hlast hc] at h
    injection h with h1 h2
    subst h1
    exact List.suffix_refl _
  | case3 i tokens s hlast hc =>
    intro R out h
    rw [mnsm_step_match_panic hlast hc] at h
    cases h
  | case4 i tokens v hlast rest' t hm ih =>
    intro R out h
    rw [mnsm_step_capture_ok hlast hm] at h
    exact (ih R out h).trans (match_specific_ok_shape hm).2
  | case5 i tokens v hlast hm =>
    intro R out h
    rw [mnsm_step_capture_err hlast hm] at h
    injection h with h1 h2
    subst h1
    exact List.suffix_refl _
  | case6 i tokens v hlast hm =>
    intro R out h
    rw [mnsm_step_capture_panic hlast hm] at h
    cases h
  | case7 i tokens hnm hnc =>
    intro R out h
    rw [match_next_section_matchers.eq_def] at h
    split at h
    · rename_i s2 heq
      exact ((hnm s2 heq).elim)
    · rename_i v2 heq
      exact ((hnc v2 heq).elim)
    · cases h

/-- Discriminator for `Match` tokens. -/
def isMatchTok : RouteParserToken → Bool
  | .Match _ => true
  | _ => false

/-- Discriminator for `Capture` tokens. -/
def isCaptureTok : RouteParserToken → Bool
  | .Capture _ => true
  | _ => false

/-- Discriminator for `Optional` tokens. -/
def isOptionalTok : RouteParserToken → Bool
  | .Optional _ => true
  | _ => false

/-- Two adjacent tokens are not both `Match` and not both `Capture`. -/
def mcAlternates (a b : RouteParserToken) : Prop :=
  ¬(isMatchTok a = true ∧ isMatchTok b = true) ∧
  ¬(isCaptureTok a = true ∧ isCaptureTok b = true)

theorem mnsm_step_other {i : List Char} {tokens : List RouteParserToken}
    (hnm : ∀ s, tokens.getLast? = some (.Match s) → False)
    (hnc : ∀ v, tokens.getLast? = some (.Capture v) → False) :
    match_next_section_matchers i tokens = .panic := by
  rw [match_next_section_matchers.eq_def]
  split
  · rename_i s2 heq
    exact ((hnm s2 heq).elim)
  · rename_i v2 heq
    exact ((hnc v2 heq).elim)
  · rfl

/-- The alternating-collection loop preserves: tokens non-empty, every token a `Match`
or a `Capture`, and adjacent tokens of opposite kinds. -/
theorem mnsm_ok_invariant : ∀ (i : List Char) (tokens : List RouteParserToken),
    tokens ≠ [] →
    (∀ t ∈ tokens, isMatchTok t = true ∨ isCaptureTok t = true) →
    List.Chain' mcAlternates tokens →
    ∀ rest out, match_next_section_matchers i tokens = .ok rest out →
      out ≠ [] ∧ (∀ t ∈ out, isMatchTok t = true ∨ isCaptureTok t = true) ∧
        List.Chain' mcAlternates out := by
  intro i tokens
  induction i, tokens using match_next_section_matchers.induct with
  | case1 i tokens s hlast rest' t hc ih =>
    intro hne hmc hchain R out h
    rw [mnsm_step_match_ok hlast hc] at h
    obtain ⟨⟨v, hv⟩, _⟩ := capture_ok_shape hc
    subst hv
    refine ih ?_ ?_ ?_ R out h
    · simp
    · intro x hx
      rcases List.mem_append.mp hx with hx | hx
      · exact hmc x hx
      · simp only [List.mem_singleton] at hx
        subst hx
        right
        rfl
    · rw [List.chain'_append]
      refine ⟨hchain, List.chain'_singleton _, ?_⟩
      intro x hx y hy
      rw [hlast] at hx
      simp only [Option.mem_def, Option.some.injEq] at hx
      subst hx
      simp only [List.head?_cons, Option.mem_def, Option.some.injEq] at hy
      subst hy
      exact ⟨fun hh => by simp [isMatchTok] at hh, fun hh => by simp [isCaptureTok] at hh⟩
  | case2 i tokens s hlast hc =>
    intro hne hmc hchain R out h
    rw [mnsm_step_match_err hlast hc] at h
    injection h with h1 h2
    subst h2
    exact ⟨hne, hmc, hchain⟩
  | case3 i tokens s hlast hc =>
    intro hne hmc hchain R out h
    rw [mnsm_step_match_panic hlast hc] at h
    cases h
  | case4 i tokens v hlast rest' t hm ih =>
    intro hne hmc hchain R out h
    rw [mnsm_step_capture_ok hlast hm] at h
    obtain ⟨⟨s, hs⟩, _⟩ := match_specific_ok_shape hm
    subst hs
    refine ih ?_ ?_ ?_ R out h
    · simp
    · intro x hx
      rcases List.mem_append.mp hx with hx | hx
      · exact hmc x hx
      · simp only [List.mem_singleton] at hx
        subst hx
        left
        rfl
    · rw [List.chain'_append]
      refine ⟨hchain, List.chain'_singleton _, ?_⟩
      intro x hx y hy
      rw [hlast] at hx
      simp only [Option.mem_def, Option.some.injEq] at hx
      subst hx
      simp only [List.head?_cons, Option.mem_def, Option.some.injEq] at hy
      subst hy
      exact ⟨fun hh => by simp [isMatchTok] at hh, fun hh => by simp [isCaptureTok] at hh⟩
  | case5 i tokens v hlast hm =>
    intro hne hmc hchain R out h
    rw [mnsm_step_capture_err hlast hm] at h
    injection h with h1 h2
    subst h2
    exact ⟨hne, hmc, hchain⟩
  | case6 i tokens v hlast hm =>
    intro hne hmc hchain R out h
    rw [mnsm_step_capture_panic hlast hm] at h
    cases h
  | case7 i tokens hnm hnc =>
    intro hne hmc hchain R out h
    rw [mnsm_step_other hnm hnc] at h
    cases h

/-- A successful `section_matchers` yields a non-empty token list of alternating
`Match`/`Capture` tokens. -/
theorem section_matchers_ok_invariant {i rest : List Char} {out : List RouteParserToken}
    (h : section_matchers i = .ok rest out) :
    out ≠ [] ∧ (∀ t ∈ out, isMatchTok t = true ∨ isCaptureTok t = true) ∧
      List.Chain' mcAlternates out := by
  unfold section_matchers at h
  split at h
  · rename_i r1 t heq
    have hmc : isMatchTok t = true ∨ isCaptureTok t = true := by
      rcases altP_ok_elim heq with hh | hh
      · obtain ⟨⟨s, hs⟩, _⟩ := match_specific_ok_shape hh
        subst hs
        left
        rfl
      · obtain ⟨⟨v, hv⟩, _⟩ := capture_ok_shape hh
        subst hv
        right
        rfl
    refine mnsm_ok_invariant r1 [t] (by simp) ?_ (List.chain'_singleton t) rest out h
    intro x hx
    simp only [List.mem_singleton] at hx
    subst hx
    exact hmc
  · cases h
  · cases h

/-- A successful `section_matchers` leaves a suffix of its input unconsumed. -/
theorem section_matchers_ok_suffix {i rest : List Char} {out : List RouteParserToken}
    (h : section_matchers i = .ok rest out) : rest <:+ i := by
  unfold section_matchers at h
  split at h
  · rename_i r1 t heq
    refine (mnsm_ok_suffix r1 [t] rest out h).trans ?_
    exact altP_suffix (fun _ _ _ hh => (match_specific_ok_shape hh).2)
      (fun _ _ _ hh => (capture_ok_shape hh).2) i r1 t heq
  · cases h
  · cases h

/-- A successful `inner_path_parser` produces `Separator` followed by a non-empty run of
`Match`/`Capture` tokens, strictly consuming input and leaving a suffix. -/
theorem inner_path_parser_ok_shape {i rest : List Char} {out : List RouteParserToken}
    (h : inner_path_parser_fn i = .ok rest out) :
    (∃ sec, out = RouteParserToken.Separator :: sec ∧ sec ≠ [] ∧
      (∀ t ∈ sec, isMatchTok t = true ∨ isCaptureTok t = true)) ∧
    rest <:+ i ∧ rest.length < i.length := by
  unfold inner_path_parser_fn at h
  split at h
  · rename_i r1 sep heq1
    split at h
    · rename_i r2 sections heq2
      injection h with e1 e2
      obtain ⟨hsep, hi⟩ := separator_token_ok_shape heq1
      subst hsep
      obtain ⟨hne, hmc, _⟩ := section_matchers_ok_invariant heq2
      have hsuf : r2 <:+ r1 := section_matchers_ok_suffix heq2
      have h1 : r2.length ≤ r1.length := hsuf.length_le
      subst e1
      subst e2
      refine ⟨⟨sections, rfl, hne, hmc⟩, ?_, ?_⟩
      · rw [hi]
        exact hsuf.trans (suffix_tail _ _)
      · rw [hi]
        simp only [List.length_cons]
        omega
    · cases h
    · cases h
  · cases h
  · cases h

theorem many0_step_err {α : Type} {p : List Char → PResult α} {i : List Char}
    (hp : p i = .err) : many0 p i = .ok i [] := by
  rw [many0.eq_def, hp]

theorem many0_step_panic {α : Type} {p : List Char → PResult α} {i : List Char}
    (hp : p i = .panic) : many0 p i = .panic := by
  rw [many0.eq_def, hp]

theorem many0_step_ok {α : Type} {p : List Char → PResult α} {i rest : List Char} {v : α}
    (hp : p i = .ok rest v) (hlt : rest.length < i.length) :
    many0 p i = (match many0 p rest with
      | .ok r2 vs => .ok r2 (v :: vs)
      | .err => .err
      | .panic => .panic) := by
  rw [many0.eq_def, hp]
  dsimp only
  rw [dif_pos hlt]

/-- Generic property of `many0`: when every success of `p` satisfies `Q` and returns a
suffix, a successful `many0 p` collects only `Q`-elements and returns a suffix. -/
theorem many0_ok_props {α : Type} {p : List Char → PResult α} (Q : α → Prop)
    (hp : ∀ j r v, p j = .ok r v → Q v ∧ r <:+ j) :
    ∀ (n : Nat) (i : List Char), i.length ≤ n →
      ∀ rest vs, many0 p i = .ok rest vs → (∀ v ∈ vs, Q v) ∧ rest <:+ i := by
  intro n
  induction n with
  | zero =>
    intro i hlen rest vs h
    cases hpi : p i with
    | ok r v =>
      have hnlt : ¬(r.length < i.length) := by omega
      rw [many0.eq_def, hpi] at h
      dsimp only at h
      rw [dif_neg hnlt] at h
      cases h
    | err =>
      rw [many0_step_err hpi] at h
      injection h with e1 e2
      subst e1
      subst e2
      exact ⟨by simp, List.suffix_refl _⟩
    | panic =>
      rw [many0_step_panic hpi] at h
      cases h
  | succ n ih =>
    intro i hlen rest vs h
    cases hpi : p i with
    | err =>
      rw [many0_step_err hpi] at h
      injection h with e1 e2
      subst e1
      subst e2
      exact ⟨by simp, List.suffix_refl _⟩
    | panic =>
      rw [many0_step_panic hpi] at h
      cases h
    | ok r v =>
      by_cases hlt : r.length < i.length
      · rw [many0_step_ok hpi hlt] at h
        cases hrec : many0 p r with
        | ok r2 vs2 =>
          rw [hrec] at h
          dsimp only at h
          injection h with e1 e2
          subst e1
          subst e2
          obtain ⟨hq, hsuf⟩ := ih r (by omega) r2 vs2 hrec
          refine ⟨?_, hsuf.trans (hp i r v hpi).2⟩
          intro x hx
          rcases List.mem_cons.mp hx with hx | hx
          · rw [hx]
            exact (hp i r v hpi).1
          · exact hq x hx
        | err =>
          rw [hrec] at h
          cases h
        | panic =>
          rw [hrec] at h
          cases h
      · rw [many0.eq_def, hpi] at h
        dsimp only at h
        rw [dif_neg hlt] at h
        cases h

/-- Generic: when every success of `p` strictly consumes input, `many0 p` never returns
an error (its infinite-loop guard never triggers, and `p`'s own error ends the loop). -/
theorem many0_no_err {α : Type} {p : List Char → PResult α}
    (hp : ∀ j r v, p j = .ok r v → r.length < j.length) :
    ∀ (n : Nat) (i : List Char), i.length ≤ n → many0 p i ≠ .err := by
  intro n
  induction n with
  | zero =>
    intro i hlen h
    cases hpi : p i with
    | ok r v => exact absurd (hp i r v hpi) (by omega)
    | err => rw [many0_step_err hpi] at h; cases h
    | panic => rw [many0_step_panic hpi] at h; cases h
  | succ n ih =>
    intro i hlen h
    cases hpi : p i with
    | err => rw [many0_step_err hpi] at h; cases h
    | panic => rw [many0_step_panic hpi] at h; cases h
    | ok r v =>
      have hlt := hp i r v hpi
      rw [many0_step_ok hpi hlt] at h
      cases hrec : many0 p r with
      | ok r2 vs =>
        rw [hrec] at h
        cases h
      | err => exact ih r (by omega) hrec
      | panic =>
        rw [hrec] at h
        cases h

/-- A `Match` or `Capture` token is not an `Optional` token. -/
theorem isMC_not_optional {t : RouteParserToken}
    (h : isMatchTok t = true ∨ isCaptureTok t = true) : isOptionalTok t = false := by
  cases t
  · simp [isMatchTok, isCaptureTok] at h
  · rfl
  · rfl
  · simp [isMatchTok, isCaptureTok] at h

/-- A successful `many_inner_paths` yields only non-`Optional` tokens and a suffix
remainder. -/
theorem many_inner_paths_ok_shape {i rest : List Char} {out : List RouteParserToken}
    (h : many_inner_paths i = .ok rest out) :
    (∀ t ∈ out, isOptionalTok t = false) ∧ rest <:+ i := by
  unfold many_inner_paths at h
  split at h
  · rename_i r tss heq
    injection h with e1 e2
    subst e1
    subst e2
    obtain ⟨hq, hsuf⟩ := many0_ok_props
      (fun ts => ∃ sec, ts = RouteParserToken.Separator :: sec ∧ sec ≠ [] ∧
        (∀ t ∈ sec, isMatchTok t = true ∨ isCaptureTok t = true))
      (fun j r v hh => ⟨(inner_path_parser_ok_shape hh).1, (inner_path_parser_ok_shape hh).2.1⟩)
      i.length i (Nat.le_refl _) _ _ heq
    refine ⟨?_, hsuf⟩
    intro t ht
    obtain ⟨ts, hts, htmem⟩ := List.mem_flatten.mp ht
    obtain ⟨sec, hsec, _, hmc⟩ := hq ts hts
    subst hsec
    rcases List.mem_cons.mp htmem with ht2 | ht2
    · subst ht2
      rfl
    · exact isMC_not_optional (hmc t ht2)
  · cases h
  · cases h

theorem many_inner_paths_no_err (i : List Char) : many_inner_paths i ≠ .err := by
  intro h
  unfold many_inner_paths at h
  split at h
  · cases h
  · rename_i heq
    exact many0_no_err (fun j r v hh => (inner_path_parser_ok_shape hh).2.2)
      i.length i (Nat.le_refl _) heq
  · cases h

/-- A successful `optional_matches inner_path_parser_fn` yields an `Optional` token whose
contents begin with `Separator`, strictly consuming input. -/
theorem optional_matches_inner_ok_shape {i rest : List Char} {t : RouteParserToken}
    (h : optional_matches inner_path_parser_fn i = .ok rest t) :
    (∃ tl, t = RouteParserToken.Optional (RouteParserToken.Separator :: tl)) ∧
      rest <:+ i ∧ rest.length < i.length := by
  unfold optional_matches at h
  split at h
  · rename_i r1
    split at h
    · rename_i r2 ts heq
      split at h
      · rename_i r3
        injection h with e1 e2
        obtain ⟨⟨sec, hsec, _, _⟩, hsuf, hlen⟩ := inner_path_parser_ok_shape heq
        subst e1
        subst e2
        subst hsec
        refine ⟨⟨sec, rfl⟩, ?_, ?_⟩
        · exact ((suffix_tail _ _).trans hsuf).trans (suffix_tail _ _)
        · have h1 := List.IsSuffix.length_le hsuf
          simp only [List.length_cons] at *
          omega
      · cases h
    · cases h
    · cases h
  · cases h

/-- A successful `many_optional_inner_paths` yields only `Optional` tokens whose
contents begin with `Separator`, and a suffix remainder. -/
theorem many_optional_inner_paths_ok_shape {i rest : List Char}
    {out : List RouteParserToken}
    (h : many_optional_inner_paths i = .ok rest out) :
    (∀ t ∈ out, ∃ tl, t = RouteParserToken.Optional (RouteParserToken.Separator :: tl)) ∧
      rest <:+ i := by
  unfold many_optional_inner_paths at h
  exact many0_ok_props
    (fun t => ∃ tl, t = RouteParserToken.Optional (RouteParserToken.Separator :: tl))
    (fun j r v hh => ⟨(optional_matches_inner_ok_shape hh).1,
      (optional_matches_inner_ok_shape hh).2.1⟩)
    i.length i (Nat.le_refl _) rest out h

theorem many_optional_inner_paths_no_err (i : List Char) :
    many_optional_inner_paths i ≠ .err := by
  intro h
  unfold many_optional_inner_paths at h
  exact many0_no_err (fun j r v hh => (optional_matches_inner_ok_shape hh).2.2)
    i.length i (Nat.le_refl _) h

/-- A successful `many_optional_after_concrete_inner` splits into a non-`Optional`
mandatory part followed by a run of `Optional` groups. -/
theorem moaci_ok_shape {i rest : List Char} {out : List RouteParserToken}
    (h : many_optional_after_concrete_inner i = .ok rest out) :
    ∃ A B, out = A ++ B ∧ (∀ t ∈ A, isOptionalTok t = false) ∧
      (∀ t ∈ B, ∃ tl, t = RouteParserToken.Optional (RouteParserToken.Separator :: tl)) ∧
      rest <:+ i := by
  unfold many_optional_after_concrete_inner at h
  split at h
  · rename_i r1 first heq1
    split at h
    · rename_i r2 second heq2
      injection h with e1 e2
      obtain ⟨hA, hsufA⟩ := many_inner_paths_ok_shape heq1
      obtain ⟨hB, hsufB⟩ := many_optional_inner_paths_ok_shape heq2
      subst e1
      subst e2
      exact ⟨first, second, rfl, hA, hB, hsufB.trans hsufA⟩
    · cases h
    · cases h
  · cases h
  · cases h

theorem moaci_no_err (i : List Char) : many_optional_after_concrete_inner i ≠ .err := by
  intro h
  unfold many_optional_after_concrete_inner at h
  split at h
  · rename_i r1 first heq1
    split at h
    · cases h
    · rename_i heq2
      exact many_optional_inner_paths_no_err r1 heq2
    · cases h
  · rename_i heq1
    exact many_inner_paths_no_err i heq1
  · cases h

/-- Structure of a successful first `path_parser` alternative: mandatory tokens, then
`Optional` groups, then an optional trailing separator. -/
theorem path_parser_alt_a_ok_shape {i rest : List Char} {out : List RouteParserToken}
    (h : path_parser_alt_a i = .ok rest out) :
    ∃ A B C, out = A ++ B ++ C ∧ (∀ t ∈ A, isOptionalTok t = false) ∧
      (∀ t ∈ B, ∃ tl, t = RouteParserToken.Optional (RouteParserToken.Separator :: tl)) ∧
      (C = [] ∨ C = [RouteParserToken.Separator]) ∧ rest <:+ i := by
  unfold path_parser_alt_a at h
  split at h
  · rename_i r1 paths heq1
    split at h
    · rename_i r2 sep heq2
      injection h with e1 e2
      obtain ⟨A, B, hout, hA, hB, hsuf⟩ := moaci_ok_shape heq1
      obtain ⟨hsep, hr1⟩ := separator_token_ok_shape heq2
      subst e1
      subst e2
      subst hsep
      subst hout
      refine ⟨A, B, [RouteParserToken.Separator], by rw [List.append_assoc], hA, hB,
        Or.inr rfl, ?_⟩
      have h2 : r2 <:+ r1 := by
        rw [hr1]
        exact suffix_tail _ _
      exact h2.trans hsuf
    · injection h with e1 e2
      obtain ⟨A, B, hout, hA, hB, hsuf⟩ := moaci_ok_shape heq1
      subst e1
      subst e2
      subst hout
      exact ⟨A, B, [], by rw [List.append_nil], hA, hB, Or.inl rfl, hsuf⟩
    · cases h
  · cases h
  · cases h

theorem path_parser_alt_a_no_err (i : List Char) : path_parser_alt_a i ≠ .err := by
  intro h
  unfold path_parser_alt_a at h
  split at h
  · split at h
    · cases h
    · cases h
    · cases h
  · rename_i heq
    exact moaci_no_err i heq
  · cases h

/-- Structure of any successful `path_parser` run: non-`Optional` mandatory tokens,
then `Optional` groups each wrapping `Separator :: _`, then `[]` or a single trailing
`Separator`; the remainder is a suffix of the input. -/
theorem path_parser_ok_structure {i rest : List Char} {out : List RouteParserToken}
    (h : path_parser_fn i = .ok rest out) :
    ∃ A B C, out = A ++ B ++ C ∧ (∀ t ∈ A, isOptionalTok t = false) ∧
      (∀ t ∈ B, ∃ tl, t = RouteParserToken.Optional (RouteParserToken.Separator :: tl)) ∧
      (C = [] ∨ C = [RouteParserToken.Separator]) ∧ rest <:+ i := by
  unfold path_parser_fn at h
  rcases altP_ok_elim h with h | h
  · exact path_parser_alt_a_ok_shape h
  · unfold path_parser_alt_b at h
    split at h
    · rename_i r sep heq
      injection h with e1 e2
      obtain ⟨hsep, hi⟩ := separator_token_ok_shape heq
      subst e1
      subst e2
      subst hsep
      refine ⟨[RouteParserToken.Separator], [], [], rfl, ?_, by simp, Or.inl rfl, ?_⟩
      · intro t ht
        simp only [List.mem_singleton] at ht
        subst ht
        rfl
      · rw [hi]
        exact suffix_tail _ _
    · cases h
    · cases h

/-- The top-level `path_parser` never returns a parse error: its first alternative is
built only of `many0` and `opt` layers over always-consuming inner parsers. -/
theorem path_parser_never_err (i : List Char) : path_parser_fn i ≠ .err := by
  intro h
  unfold path_parser_fn altP at h
  split at h
  · cases h
  · rename_i heq
    exact path_parser_alt_a_no_err i heq
  · cases h

/-- Whether a parse outcome is a success. -/
def PResult.isOk {α : Type} : PResult α → Bool
  | .ok _ _ => true
  | .err => false
  | .panic => false

/-- Discriminator for the `Separator` token. -/
def isSepTok : RouteParserToken → Bool
  | .Separator => true
  | _ => false

/-- Checks that a token list consists of `Optional` tokens except possibly for a single
`Separator` in the final position. -/
def optsThenTrailingSep : List RouteParserToken → Bool
  | [] => true
  | t :: rest =>
    (isOptionalTok t && optsThenTrailingSep rest) || (isSepTok t && rest.isEmpty)

/-- Claim C5's invariant, read off a token list: every token occurring after the first
`Optional` token is either another `Optional` token or a single trailing `Separator`. -/
def afterFirstOptionalOk : List RouteParserToken → Bool
  | [] => true
  | t :: rest =>
    if isOptionalTok t then optsThenTrailingSep rest else afterFirstOptionalOk rest

theorem optsThenTrailingSep_append {B C : List RouteParserToken}
    (hB : ∀ t ∈ B, isOptionalTok t = true)
    (hC : C = [] ∨ C = [RouteParserToken.Separator]) :
    optsThenTrailingSep (B ++ C) = true := by
  induction B with
  | nil =>
    rcases hC with hC | hC <;> subst hC <;> rfl
  | cons b B2 ih =>
    have hb := hB b (List.mem_cons_self _ _)
    have hrest := ih (fun t ht => hB t (List.mem_cons_of_mem _ ht))
    simp [optsThenTrailingSep, hb, hrest]

theorem afterFirstOptionalOk_structure {A B C : List RouteParserToken}
    (hA : ∀ t ∈ A, isOptionalTok t = false)
    (hB : ∀ t ∈ B, isOptionalTok t = true)
    (hC : C = [] ∨ C = [RouteParserToken.Separator]) :
    afterFirstOptionalOk (A ++ B ++ C) = true := by
  induction A with
  | nil =>
    simp only [List.nil_append]
    cases B with
    | nil =>
      simp only [List.nil_append]
      rcases hC with hC | hC <;> subst hC <;> rfl
    | cons b B2 =>
      have hb := hB b (List.mem_cons_self _ _)
      simp only [List.cons_append, afterFirstOptionalOk, hb, if_true]
      exact optsThenTrailingSep_append (fun t ht => hB t (List.mem_cons_of_mem _ ht)) hC
  | cons a A2 ih =>
    have ha := hA a (List.mem_cons_self _ _)
    simp only [List.cons_append, afterFirstOptionalOk, ha, Bool.false_eq_true, if_false]
    exact ih (fun t ht => hA t (List.mem_cons_of_mem _ ht))

/-- Helper: the first element of `dropWhile p l` falsifies `p`. -/
theorem dropWhile_head_not {α : Type} (p : α → Bool) :
    ∀ (l : List α) (d : α) (t2 : List α), l.dropWhile p = d :: t2 → p d = false := by
  intro l
  induction l with
  | nil =>
    intro d t2 h
    simp at h
  | cons c cs ih =>
    intro d t2 h
    rw [List.dropWhile_cons] at h
    by_cases hc : p c = true
    · rw [if_pos hc] at h
      exact ih d t2 h
    · rw [if_neg hc] at h
      injection h with e1 e2
      subst e1
      simpa using hc

/-- C3: `valid_ident_characters` fails when the first character is a decimal digit,
fails when the input is empty or starts with a forbidden character, and otherwise
succeeds, consuming the longest prefix of non-forbidden characters; in particular on a
whole valid identifier (non-empty, no forbidden character, not digit-led) it returns
remainder `[]` and the full input as the captured text. -/
theorem C3_valid_ident_characters_spec :
    ∀ i : List Char,
      (i = [] → valid_ident_characters i = .err) ∧
      (∀ c t, i = c :: t → c.isDigit = true → valid_ident_characters i = .err) ∧
      (∀ c t, i = c :: t → isInvalidChar c = true → valid_ident_characters i = .err) ∧
      (∀ c t, i = c :: t → c.isDigit = false → isInvalidChar c = false →
        ∃ run rest, valid_ident_characters i = .ok rest run ∧ run ++ rest = i ∧
          run ≠ [] ∧ (∀ x ∈ run, isInvalidChar x = false) ∧
          (rest = [] ∨ ∃ d t2, rest = d :: t2 ∧ isInvalidChar d = true)) ∧
      (∀ c t, i = c :: t → c.isDigit = false →
        (∀ x ∈ i, isInvalidChar x = false) → valid_ident_characters i = .ok [] i) := by
  intro i
  refine ⟨?_, ?_, ?_, ?_, ?_⟩
  · intro h
    subst h
    rfl
  · intro c t h hd
    subst h
    simp [valid_ident_characters, hd]
  · intro c t h hinv
    subst h
    by_cases hd : c.isDigit = true
    · simp [valid_ident_characters, hd]
    · have hrun : (c :: t).takeWhile (fun ch => !(isInvalidChar ch)) = [] := by
        rw [List.takeWhile_cons, if_neg (by simp [hinv])]
      simp [valid_ident_characters, hd, hrun]
  · intro c t h hd hinv
    subst h
    have hpred : (fun ch => !(isInvalidChar ch)) c = true := by simp [hinv]
    have hrun : (c :: t).takeWhile (fun ch => !(isInvalidChar ch)) ≠ [] := by
      rw [List.takeWhile_cons, if_pos hpred]
      simp
    have hok : valid_ident_characters (c :: t) =
        .ok ((c :: t).dropWhile fun ch => !(isInvalidChar ch))
          ((c :: t).takeWhile fun ch => !(isInvalidChar ch)) := by
      simp only [valid_ident_characters, hd, Bool.false_eq_true, if_false]
      rw [if_neg hrun]
    refine ⟨_, _, hok, List.takeWhile_append_dropWhile _ _, hrun, ?_, ?_⟩
    · intro x hx
      have hx2 := List.mem_takeWhile_imp hx
      simpa using hx2
    · cases hrest : (c :: t).dropWhile (fun ch => !(isInvalidChar ch)) with
      | nil => exact Or.inl rfl
      | cons d t2 =>
        right
        refine ⟨d, t2, rfl, ?_⟩
        have hnd := dropWhile_head_not (fun ch => !(isInvalidChar ch)) (c :: t) d t2 hrest
        simpa using hnd
  · intro c t h hd hall
    subst h
    have hself : (c :: t).takeWhile (fun ch => !(isInvalidChar ch)) = c :: t :=
      List.takeWhile_eq_self_iff.mpr (fun x hx => by simp [hall x hx])
    have hdrop : (c :: t).dropWhile (fun ch => !(isInvalidChar ch)) = [] := by
      have hlen := congrArg List.length (List.takeWhile_append_dropWhile
        (fun ch => !(isInvalidChar ch)) (c :: t))
      rw [List.length_append, hself] at hlen
      have : ((c :: t).dropWhile (fun ch => !(isInvalidChar ch))).length = 0 := by omega
      exact List.length_eq_zero.mp this
    have hne : (c :: t).takeWhile (fun ch => !(isInvalidChar ch)) ≠ [] := by
      rw [hself]
      simp
    simp only [valid_ident_characters, hd, Bool.false_eq_true, if_false]
    rw [if_neg hne, hself, hdrop]

/-- Witness for C3 at the valid identifier `"hello"`. -/
theorem C3_valid_ident_characters_spec_witness :
    valid_ident_characters "hello".toList = .ok [] "hello".toList :=
  (C3_valid_ident_characters_spec "hello".toList).2.2.2.2 'h' "ello".toList rfl
    (by decide) (by decide)

unseal many0 match_next_section_matchers in
/-- C1: the full-consumption parse of "/hello(/hello)" succeeds and `path_parser`
returns exactly `[Separator, Match "hello", Optional [Separator, Match "hello"]]` with
an empty unconsumed remainder. -/
theorem C1_path_parser_hello_optional :
    path_parser_fn "/hello(/hello)".toList =
      .ok [] [RouteParserToken.Separator, RouteParserToken.Match "hello",
        RouteParserToken.Optional
          [RouteParserToken.Separator, RouteParserToken.Match "hello"]] ∧
    all_consuming path_parser_fn "/hello(/hello)".toList =
      .ok [] [RouteParserToken.Separator, RouteParserToken.Match "hello",
        RouteParserToken.Optional
          [RouteParserToken.Separator, RouteParserToken.Match "hello"]] :=
  ⟨by rfl, by rfl⟩

/-- C2: the capture parser maps each of the six bracketed shapes to its variant, each
with an empty remainder. -/
theorem C2_capture_shapes :
    capture "\x7b\x7d".toList = .ok [] (.Capture .Unnamed) ∧
    capture "\x7b*\x7d".toList = .ok [] (.Capture .ManyUnnamed) ∧
    capture "\x7bhello\x7d".toList = .ok [] (.Capture (.Named "hello")) ∧
    capture "\x7b*:name\x7d".toList = .ok [] (.Capture (.ManyNamed "name")) ∧
    capture "\x7b5\x7d".toList = .ok [] (.Capture (.NumberedUnnamed 5)) ∧
    capture "\x7b5:name\x7d".toList = .ok [] (.Capture (.NumberedNamed 5 "name")) :=
  ⟨by rfl, by rfl, by rfl, by rfl, by rfl, by rfl⟩

unseal many0 match_next_section_matchers in
/-- C4: the full-consumption parse of "/path\x7b\x7d\x7bmatch\x7d" fails, and the
remainder where the grammar stopped is exactly "\x7bmatch\x7d": after the `Unnamed`
capture, `section_matchers` stops without failing and the second capture stays
unconsumed. -/
theorem C4_adjacent_captures_left_unconsumed :
    path_parser_fn "/path\x7b\x7d\x7bmatch\x7d".toList =
      .ok "\x7bmatch\x7d".toList
        [RouteParserToken.Separator, RouteParserToken.Match "path",
          RouteParserToken.Capture CaptureVariant.Unnamed] ∧
    all_consuming path_parser_fn "/path\x7b\x7d\x7bmatch\x7d".toList = .err :=
  ⟨by rfl, by rfl⟩

unseal many0 match_next_section_matchers in
/-- C9: the full-consumption parse of "/hello(/hello)/" succeeds and equals the token
sequence for "/hello(/hello)" with one extra trailing `Separator`. -/
theorem C9_trailing_separator :
    path_parser_fn "/hello(/hello)/".toList =
      .ok [] [RouteParserToken.Separator, RouteParserToken.Match "hello",
        RouteParserToken.Optional
          [RouteParserToken.Separator, RouteParserToken.Match "hello"],
        RouteParserToken.Separator] ∧
    all_consuming path_parser_fn "/hello(/hello)/".toList =
      .ok [] [RouteParserToken.Separator, RouteParserToken.Match "hello",
        RouteParserToken.Optional
          [RouteParserToken.Separator, RouteParserToken.Match "hello"],
        RouteParserToken.Separator] :=
  ⟨by rfl, by rfl⟩

/-- C6: on a brace-content digit run that overflows the integer type (here
2^64 = 18446744073709551616, one past `usize::MAX`), the capture parser does not return
an `InvalidSectionCount`-style error to its caller — the `expect` on the failed
`parse` panics instead. -/
theorem C6_capture_overflow_panics :
    parse_usize "18446744073709551616".toList = none ∧
    capture "\x7b18446744073709551616\x7d".toList = .panic ∧
    capture "\x7b18446744073709551616\x7d".toList ≠ .err := by
  refine ⟨by rfl, by rfl, ?_⟩
  intro h
  rw [show capture "\x7b18446744073709551616\x7d".toList = .panic from rfl] at h
  cases h

unseal many0 match_next_section_matchers in
/-- Counterexample to C5 as stated: parsing "/hello(/hello)/hello" does fail the
full-consumption check, but the unconsumed remainder is "hello", not "/hello" — the
slash is consumed by `opt(separator_token)` and appended as a trailing `Separator`
token. -/
theorem C5_counterexample_remainder :
    path_parser_fn "/hello(/hello)/hello".toList =
      .ok "hello".toList
        [RouteParserToken.Separator, RouteParserToken.Match "hello",
          RouteParserToken.Optional
            [RouteParserToken.Separator, RouteParserToken.Match "hello"],
          RouteParserToken.Separator] ∧
    "hello".toList ≠ "/hello".toList ∧
    all_consuming path_parser_fn "/hello(/hello)/hello".toList = .err :=
  ⟨by rfl, by decide, by rfl⟩

unseal many0 match_next_section_matchers in
/-- C5 (amended): for every input on which `path_parser` succeeds, every token after
the first `Optional` token is another `Optional` token or a single trailing
`Separator`; the full-consumption parse of "/hello(/hello)/hello" fails, with
remainder "hello" unconsumed (the slash before it is consumed as a trailing separator
token). -/
theorem C5_optional_tail_invariant :
    (∀ (i rest : List Char) (out : List RouteParserToken),
        path_parser_fn i = .ok rest out → afterFirstOptionalOk out = true) ∧
    path_parser_fn "/hello(/hello)/hello".toList =
      .ok "hello".toList
        [RouteParserToken.Separator, RouteParserToken.Match "hello",
          RouteParserToken.Optional
            [RouteParserToken.Separator, RouteParserToken.Match "hello"],
          RouteParserToken.Separator] ∧
    all_consuming path_parser_fn "/hello(/hello)/hello".toList = .err := by
  refine ⟨?_, by rfl, by rfl⟩
  intro i rest out h
  obtain ⟨A, B, C, hout, hA, hB, hC, _⟩ := path_parser_ok_structure h
  subst hout
  refine afterFirstOptionalOk_structure hA ?_ hC
  intro t ht
  obtain ⟨tl, htl⟩ := hB t ht
  subst htl
  rfl

unseal many0 match_next_section_matchers in
/-- Witness for C5's universally quantified part at the input "/a(/b)(/c)". -/
theorem C5_optional_tail_invariant_witness :
    afterFirstOptionalOk
      [RouteParserToken.Separator, RouteParserToken.Match "a",
        RouteParserToken.Optional [RouteParserToken.Separator, RouteParserToken.Match "b"],
        RouteParserToken.Optional [RouteParserToken.Separator, RouteParserToken.Match "c"]] =
      true :=
  C5_optional_tail_invariant.1 "/a(/b)(/c)".toList []
    [RouteParserToken.Separator, RouteParserToken.Match "a",
      RouteParserToken.Optional [RouteParserToken.Separator, RouteParserToken.Match "b"],
      RouteParserToken.Optional [RouteParserToken.Separator, RouteParserToken.Match "c"]]
    (by rfl)

/-- C7: for every input on which `section_matchers` succeeds, the returned token list
is non-empty, contains only `Match` and `Capture` tokens, and strictly alternates
between the two kinds. -/
theorem C7_section_matchers_alternation :
    ∀ (i rest : List Char) (out : List RouteParserToken),
      section_matchers i = .ok rest out →
        out ≠ [] ∧ (∀ t ∈ out, isMatchTok t = true ∨ isCaptureTok t = true) ∧
          List.Chain' mcAlternates out :=
  fun _ _ _ h => section_matchers_ok_invariant h

unseal many0 match_next_section_matchers in
/-- Witness for C7 at the input "a\x7bb\x7d" (a match followed by a capture). -/
theorem C7_section_matchers_alternation_witness :
    ([RouteParserToken.Match "a", RouteParserToken.Capture (CaptureVariant.Named "b")] ≠
        ([] : List RouteParserToken)) ∧
    (∀ t ∈ [RouteParserToken.Match "a",
        RouteParserToken.Capture (CaptureVariant.Named "b")],
      isMatchTok t = true ∨ isCaptureTok t = true) ∧
    List.Chain' mcAlternates
      [RouteParserToken.Match "a", RouteParserToken.Capture (CaptureVariant.Named "b")] :=
  C7_section_matchers_alternation "a\x7bb\x7d".toList []
    [RouteParserToken.Match "a", RouteParserToken.Capture (CaptureVariant.Named "b")]
    (by rfl)

/-- C8: for every input on which `path_parser` succeeds, every `Optional` token in the
returned sequence wraps a non-empty inner sequence whose first element is `Separator`. -/
theorem C8_optional_groups_start_with_separator :
    ∀ (i rest : List Char) (out : List RouteParserToken),
      path_parser_fn i = .ok rest out →
        ∀ ts, RouteParserToken.Optional ts ∈ out →
          ∃ tl, ts = RouteParserToken.Separator :: tl := by
  intro i rest out h ts hts
  obtain ⟨A, B, C, hout, hA, hB, hC, _⟩ := path_parser_ok_structure h
  subst hout
  rcases List.mem_append.mp hts with hts2 | hts2
  · rcases List.mem_append.mp hts2 with hts3 | hts3
    · have := hA _ hts3
      simp [isOptionalTok] at this
    · obtain ⟨tl, htl⟩ := hB _ hts3
      injection htl with e1
      exact ⟨tl, e1⟩
  · rcases hC with hC | hC <;> subst hC
    · simp at hts2
    · simp only [List.mem_singleton] at hts2
      cases hts2

unseal many0 match_next_section_matchers in
/-- Witness for C8 at the input "/hello(/hello)" and its `Optional` group. -/
theorem C8_optional_groups_start_with_separator_witness :
    ∃ tl, ([RouteParserToken.Separator, RouteParserToken.Match "hello"] :
        List RouteParserToken) = RouteParserToken.Separator :: tl :=
  C8_optional_groups_start_with_separator "/hello(/hello)".toList []
    [RouteParserToken.Separator, RouteParserToken.Match "hello",
      RouteParserToken.Optional
        [RouteParserToken.Separator, RouteParserToken.Match "hello"]]
    (by rfl)
    [RouteParserToken.Separator, RouteParserToken.Match "hello"]
    (by simp)

unseal many0 match_next_section_matchers in
/-- Counterexample to C10 as stated: `path_parser` does not return a success result on
every input — on "/\x7b18446744073709551616\x7d" (a capture whose digit run overflows
`usize`) the code panics instead of returning. -/
theorem C10_counterexample_panic :
    path_parser_fn "/\x7b18446744073709551616\x7d".toList = .panic ∧
    (path_parser_fn "/\x7b18446744073709551616\x7d".toList).isOk = false :=
  ⟨by rfl, by rfl⟩

unseal many0 match_next_section_matchers in
/-- C10 (amended): `path_parser` never returns a parse error: on every input it either
succeeds — returning a (possibly empty) token sequence and a remainder that is a suffix
of the input — or panics (only when a capture's digit run overflows the section-count
integer).  On "" and "hello" it succeeds consuming nothing with an empty token
sequence, and such inputs are rejected only by the caller's full-consumption check. -/
theorem C10_path_parser_never_errors :
    (∀ i : List Char, path_parser_fn i ≠ .err) ∧
    (∀ (i rest : List Char) (out : List RouteParserToken),
        path_parser_fn i = .ok rest out → rest <:+ i) ∧
    path_parser_fn [] = .ok [] [] ∧
    path_parser_fn "hello".toList = .ok "hello".toList [] ∧
    all_consuming path_parser_fn "hello".toList = .err := by
  refine ⟨path_parser_never_err, ?_, by rfl, by rfl, by rfl⟩
  intro i rest out h
  obtain ⟨A, B, C, _, _, _, _, hsuf⟩ := path_parser_ok_structure h
  exact hsuf

unseal many0 match_next_section_matchers in
/-- Witness for C10's quantified parts at the input "/a". -/
theorem C10_path_parser_never_errors_witness :
    path_parser_fn "/a".toList ≠ .err ∧ ([] : List Char) <:+ "/a".toList :=
  ⟨C10_path_parser_never_errors.1 "/a".toList,
    C10_path_parser_never_errors.2.1 "/a".toList []
      [RouteParserToken.Separator, RouteParserToken.Match "a"] (by rfl)⟩
